import Mathlib

/-!
Verification of `sequelize-paranoid-delete`.

The development shallowly embeds the two source files of the repository:

* `src/index.ts` — the migration interceptor (`queryInterfaceDecorator`
  proxy, `getPrimaryTableProps`, `createParanoidDeleteTriggerStatement`);
* `src/sequelize-paranoid-delete.ts` — the interactive decision engine
  (`dedupe`, `getNextRelation`, `askForNextRelation`, the `'c'` branch of
  the line handler in `up`).

Asynchronous calls are rendered as explicit `Except`-valued outcomes plus an
event trace (migration operations and SQL queries, in issue order); the
mutable relation queue of the CLI is rendered by explicit queue passing.
-/

namespace SPD

/-- One observable effect of a decorated migration call: either the underlying
migration operation itself, or a SQL statement executed through
`target.sequelize.query`. -/
inductive Event where
  | op (command : String)
  | query (sql : String)
deriving DecidableEq, Repr

/-- The SQL statements among an event trace, in issue order. -/
def queriesOf (events : List Event) : List String :=
  events.filterMap (fun e => match e with | .query s => some s | .op _ => none)

/-- The `references` field of a column specification: either a plain table
name string, or an object `{ model, key? }` (src/index.ts, `getPrimaryTableProps`). -/
inductive References where
  | table (name : String)
  | model (model : String) (key : Option String)
deriving DecidableEq, Repr

/-- The fields of an object-shaped column attribute that
`getPrimaryTableProps` inspects: `onDelete` (absent = `none`) and
`references` (absent = `none`). -/
structure ColumnAttributes where
  onDelete : Option String
  references : Option References
deriving DecidableEq, Repr

/-- `AddColumnAttributeParameter`: either a bare data type (not an object,
so the `typeof options === 'object'` test fails) or an attribute object. -/
inductive ColumnSpec where
  | dataType (name : String)
  | attrs (a : ColumnAttributes)
deriving DecidableEq, Repr

/-- `createParanoidDeleteTriggerStatement` from src/index.ts lines 13–29:
the SQL template literal, with `${...}` interpolation rendered as string
append. -/
def createParanoidDeleteTriggerStatement (primaryTable primaryKey foreignTable foreignKey : String) : String :=
  "\n  CREATE TRIGGER on_" ++ primaryTable ++ "_delete_update_" ++ foreignTable ++
  "\n  AFTER UPDATE\n  ON " ++ primaryTable ++ " FOR EACH ROW\n  BEGIN\n    IF OLD.deletedAt IS NULL AND NEW.deletedAt IS NOT NULL THEN\n      UPDATE " ++ foreignTable ++
  "\n        SET " ++ foreignTable ++ ".deletedAt = NOW()\n      WHERE " ++ foreignTable ++ "." ++ foreignKey ++ " = NEW." ++ primaryKey ++ ";\n    END IF;\n  END;\n"

/-- Modelled from the spec: `buildTriggerName(parentTable, childTable)` lives in
`src/utils/buildTriggerName.ts`, which is not under `src/`; spec §4.1/§6 give
the name `on_<parent>_delete_update_<child>`, which coincides with the trigger
name embedded in `createParanoidDeleteTriggerStatement` (src/index.ts line 19). -/
def buildTriggerName (parentTable childTable : String) : String :=
  "on_" ++ parentTable ++ "_delete_update_" ++ childTable

/-- `getPrimaryTableProps` from src/index.ts lines 31–53: a cascade
annotation (`onDelete === 'PARANOID CASCADE'` together with a `references`
field) resolves to the parent table and the primary key, with precedence
explicit `references.key`, then `getPrimaryKey?.(model)`, then `'id'`. -/
def getPrimaryTableProps (options : ColumnSpec) (getPrimaryKey : Option (String → String)) : Option (String × String) :=
  match options with
  | .dataType _ => none
  | .attrs a =>
    match a.onDelete with
    | none => none
    | some od =>
      if od = "PARANOID CASCADE" then
        match a.references with
        | none => none
        | some (.table name) =>
          some (name, (getPrimaryKey.map (fun f => f name)).getD "id")
        | some (.model m k) =>
          some (m, ((k.map some).getD (getPrimaryKey.map (fun f => f m))).getD "id")
      else none

/-- A decorated migration call: `addColumn(table, column, spec)`,
`createTable(table, columns)`, or any other member access invoked as a
method. -/
inductive MigrationCall where
  | addColumn (table column : String) (spec : ColumnSpec)
  | createTable (table : String) (columns : List (String × ColumnSpec))
  | other (name : String)

/-- `const command = String(propKey)` in the proxy `get` trap. -/
def commandName : MigrationCall → String
  | .addColumn _ _ _ => "addColumn"
  | .createTable _ _ => "createTable"
  | .other n => n

/-- Sequential execution of a list of SQL statements where the composite
fails as soon as any statement fails (the observable settling of
`Promise.all` of the per-statement query promises). -/
def runAll {E : Type} (qexec : String → Except E Unit) : List String → Except E Unit
  | [] => .ok ()
  | s :: rest =>
    match qexec s with
    | .error e => .error e
    | .ok _ => runAll qexec rest

/-- The per-column trigger statements built in the `createTable` branch of
the proxy (src/index.ts lines 96–110): `Object.entries(columns)` mapped to
`(columnName, getPrimaryTableProps(columnDescription))`, filtered to the
matches, each mapped to `createParanoidDeleteTriggerStatement(primaryTable,
primaryKey, newTable, columnName)`. -/
def triggerStatementsFor (getPrimaryKey : Option (String → String)) (newTable : String) (columns : List (String × ColumnSpec)) : List String :=
  (columns.filterMap (fun p => (getPrimaryTableProps p.2 getPrimaryKey).map (fun props => (p.1, props)))).map
    (fun q => createParanoidDeleteTriggerStatement q.2.1 q.2.2 newTable q.1)

/-- The wrapped method returned by the proxy `get` trap, applied to a call
(src/index.ts lines 62–118). `u` is the outcome of the underlying
operation (`Reflect.apply(origMethod, target, args)`, started first),
`qexec` the outcome of `target.sequelize.query` per statement. The result
pairs the value/error returned to the caller with the event trace in issue
order. -/
def decoratedInvoke {E ρ : Type} (getPrimaryKey : Option (String → String)) (qexec : String → Except E Unit) (call : MigrationCall) (u : Except E ρ) : Except E ρ × List Event :=
  let command := commandName call
  if command = "addColumn" then
    match call with
    | .addColumn t c spec =>
      match getPrimaryTableProps spec getPrimaryKey with
      | some (pt, pk) =>
        match u with
        | .error e => (.error e, [.op command])
        | .ok r =>
          let stmt := createParanoidDeleteTriggerStatement pt pk t c
          match qexec stmt with
          | .error e => (.error e, [.op command, .query stmt])
          | .ok _ => (.ok r, [.op command, .query stmt])
      | none => (u, [.op command])
    | _ => (u, [.op command])
  else if command = "createTable" then
    match call with
    | .createTable t cols =>
      match u with
      | .error e => (.error e, [.op command])
      | .ok r =>
        let stmts := triggerStatementsFor getPrimaryKey t cols
        ((match runAll qexec stmts with
          | .error e => Except.error e
          | .ok _ => Except.ok r), .op command :: stmts.map Event.query)
    | _ => (u, [.op command])
  else
    (u, [.op command])

/-- The result of the proxy `get` trap before any invocation: the raw
`sequelize` member is passed through, every other member is wrapped into a
method (src/index.ts lines 57–62). -/
inductive GetResult (σ : Type) where
  | handle (s : σ)
  | wrappedMethod (command : String)
deriving DecidableEq, Repr

/-- The proxy `get` trap of `queryInterfaceDecorator`: `sequelize` returns
`target[propKey]` unmodified, anything else becomes a wrapped method. -/
def decoratorGet {σ : Type} (sequelizeHandle : σ) (propKey : String) : GetResult σ :=
  if propKey = "sequelize" then .handle sequelizeHandle else .wrappedMethod propKey

/-- `ForeignKeyFields` (src/sequelize-paranoid-delete.ts): one foreign-key
constraint `tableName.columnName → referencedTableName.referencedColumnName`. -/
structure ForeignKeyFields where
  tableName : String
  columnName : String
  referencedTableName : String
  referencedColumnName : String
deriving DecidableEq, Repr

/-- The hasher `getTableRelations` passes to `dedupe`
(src/sequelize-paranoid-delete.ts lines 93–95):
`buildTriggerName(referencedTableName, tableName)`. -/
def relationKey (r : ForeignKeyFields) : String :=
  buildTriggerName r.referencedTableName r.tableName

/-- The `(referencedTableName, tableName)` pair of a relation. -/
def relationPair (r : ForeignKeyFields) : String × String :=
  (r.referencedTableName, r.tableName)

/-- Assignment `uniques[hash] = item` on a JS object rendered as an
association list in key-insertion order: an existing key keeps its position
and gets the new value, a fresh key is appended. -/
def upsert {α : Type} (k : String) (v : α) : List (String × α) → List (String × α)
  | [] => [(k, v)]
  | (k', v') :: rest => if k' = k then (k, v) :: rest else (k', v') :: upsert k v rest

/-- Association-list lookup (first match). -/
def lookupA {α : Type} (k : String) : List (String × α) → Option α
  | [] => none
  | (k', v) :: rest => if k' = k then some v else lookupA k rest

/-- `dedupe` (src/sequelize-paranoid-delete.ts lines 31–37): build the
`uniques` object by a left-to-right `forEach` of `uniques[hasher(item)] =
item`, then return `Object.values(uniques)` (values in key-insertion
order). -/
def dedupe {α : Type} (hasher : α → String) (array : List α) : List α :=
  (array.foldl (fun acc item => upsert (hasher item) item acc) []).map Prod.snd

/-- Modelled from the spec: `buildExistTriggerStatement` and
`unwrapSelectOneValue` live in `src/utils/`, which is not under `src/`;
spec §4.1 says the existence check "yields a truthy single scalar value if
a trigger with the deterministic name for this pair already exists, else a
falsy/absent value". The database is abstracted to the predicate
`installed` on trigger names. -/
def triggerExistsCheck (installed : String → Bool) (r : ForeignKeyFields) : Bool :=
  installed (buildTriggerName r.referencedTableName r.tableName)

/-- `getNextRelation` (src/sequelize-paranoid-delete.ts lines 39–57): look
at the queue head; empty queue yields `none`; a head whose trigger already
exists is `shift`ed off and the search recurses; otherwise the head is
returned with the queue unchanged. The returned pair is (queue after the
mutating `shift`s, presented relation). -/
def getNextRelation (installed : String → Bool) : List ForeignKeyFields → List ForeignKeyFields × Option ForeignKeyFields
  | [] => ([], none)
  | r :: rest =>
    if triggerExistsCheck installed r then getNextRelation installed rest
    else (r :: rest, some r)

/-- What the interactive session does after looking for the next relation:
close the readline interface, or prompt for a concrete relation. -/
inductive SessionStep where
  | closed
  | prompted (r : ForeignKeyFields)
deriving DecidableEq, Repr

/-- `askForNextRelation` (src/sequelize-paranoid-delete.ts lines 59–67):
`getNextRelation`; `null` closes the session, otherwise the relation is
presented via the prompt. -/
def askForNextRelation (installed : String → Bool) (tableRelations : List ForeignKeyFields) : List ForeignKeyFields × SessionStep :=
  match getNextRelation installed tableRelations with
  | (q, none) => (q, .closed)
  | (q, some r) => (q, .prompted r)

/-- Modelled from the spec: `buildCreateTriggerStatement` lives in
`src/utils/buildCreateTriggerStatement.ts`, which is not under `src/`;
spec §4.1/§6 give it the same generated SQL shape as
`createParanoidDeleteTriggerStatement` in src/index.ts. -/
def buildCreateTriggerStatement (parentTable parentKey childTable childKey : String) : String :=
  createParanoidDeleteTriggerStatement parentTable parentKey childTable childKey

/-- Console outcome of the `'c'` handler: the success message naming child
and parent, or the logged error. -/
inductive LogEntry where
  | createdTrigger (child parent : String)
  | loggedError
deriving DecidableEq, Repr

/-- The `case 'c'` branch of the line handler in `up`
(src/sequelize-paranoid-delete.ts lines 133–150), in the scanned state:
destructure the queue head (an empty queue would throw, rendered `none`),
build and execute the create-trigger statement, log success or the error,
and in the `finally` block `shift` the head and ask for the next relation.
Returns (executed statements, log entry, queue after, session step). -/
def handleCascade {E : Type} (installed : String → Bool) (qexec : String → Except E Unit) : List ForeignKeyFields → Option (List String × LogEntry × List ForeignKeyFields × SessionStep)
  | [] => none
  | r :: rest =>
    let stmt := buildCreateTriggerStatement r.referencedTableName r.referencedColumnName r.tableName r.columnName
    let log :=
      match qexec stmt with
      | .ok _ => LogEntry.createdTrigger r.tableName r.referencedTableName
      | .error _ => LogEntry.loggedError
    some ([stmt], log, askForNextRelation installed rest)

/-- The `uniques` object after `forEach` has processed `array`, starting
from `acc`. -/
def buildUniques {α : Type} (hasher : α → String) (array : List α) (acc : List (String × α)) : List (String × α) :=
  array.foldl (fun a item => upsert (hasher item) item a) acc

/-- `fragment` occurs contiguously inside `s`. -/
def occursIn (fragment s : String) : Prop :=
  ∃ pre post : String, s = pre ++ fragment ++ post

theorem dedupe_eq_buildUniques {α : Type} (hasher : α → String) (l : List α) :
    dedupe hasher l = (buildUniques hasher l []).map Prod.snd := rfl

theorem lookupA_upsert {α : Type} (k k' : String) (v : α) (acc : List (String × α)) :
    lookupA k' (upsert k v acc) = if k = k' then some v else lookupA k' acc := by
  induction acc with
  | nil => simp [upsert, lookupA]
  | cons p rest ih =>
    obtain ⟨k'', v''⟩ := p
    by_cases h : k'' = k
    · subst h
      simp only [upsert, if_pos rfl, lookupA]
      by_cases hkk : k'' = k' <;> simp [hkk]
    · simp only [upsert, if_neg h, lookupA]
      by_cases h' : k'' = k'
      · subst h'
        have hne : ¬(k = k'') := fun hh => h hh.symm
        simp [hne]
      · simp [h', ih]

theorem mem_fst_upsert {α : Type} (k k'' : String) (v : α) (acc : List (String × α)) :
    k'' ∈ (upsert k v acc).map Prod.fst ↔ k'' = k ∨ k'' ∈ acc.map Prod.fst := by
  induction acc with
  | nil => simp [upsert]
  | cons p rest ih =>
    obtain ⟨k', v'⟩ := p
    by_cases h : k' = k
    · subst h
      simp [upsert]
    · simp only [upsert, if_neg h, List.map_cons, List.mem_cons, ih]
      tauto

theorem nodup_fst_upsert {α : Type} (k : String) (v : α) (acc : List (String × α))
    (h : (acc.map Prod.fst).Nodup) : ((upsert k v acc).map Prod.fst).Nodup := by
  induction acc with
  | nil => simp [upsert]
  | cons p rest ih =>
    obtain ⟨k', v'⟩ := p
    simp only [List.map_cons, List.nodup_cons] at h
    by_cases hk : k' = k
    · subst hk
      simpa [upsert] using h
    · simp only [upsert, if_neg hk, List.map_cons, List.nodup_cons]
      refine ⟨?_, ih h.2⟩
      rw [mem_fst_upsert]
      rintro (rfl | hmem)
      · exact hk rfl
      · exact h.1 hmem

theorem mem_upsert_elim {α : Type} (k : String) (v : α) (p : String × α) :
    ∀ acc : List (String × α), p ∈ upsert k v acc → p = (k, v) ∨ p ∈ acc := by
  intro acc
  induction acc with
  | nil =>
    intro hp
    simp only [upsert, List.mem_singleton] at hp
    exact Or.inl hp
  | cons q rest ih =>
    obtain ⟨k', v'⟩ := q
    intro hp
    by_cases hk : k' = k
    · simp only [upsert, if_pos hk, List.mem_cons] at hp
      rcases hp with h | h
      · exact Or.inl h
      · exact Or.inr (List.mem_cons_of_mem _ h)
    · simp only [upsert, if_neg hk, List.mem_cons] at hp
      rcases hp with h | h
      · exact Or.inr (List.mem_cons.mpr (Or.inl h))
      · rcases ih h with h' | h'
        · exact Or.inl h'
        · exact Or.inr (List.mem_cons_of_mem _ h')

theorem invariant_upsert {α : Type} (hasher : α → String) (k : String) (v : α)
    (acc : List (String × α)) (hacc : ∀ p ∈ acc, hasher p.2 = p.1) (hv : hasher v = k) :
    ∀ p ∈ upsert k v acc, hasher p.2 = p.1 := by
  intro p hp
  rcases mem_upsert_elim k v p acc hp with rfl | hp'
  · exact hv
  · exact hacc p hp'

theorem nodup_fst_buildUniques {α : Type} (hasher : α → String) (l : List α) :
    ∀ acc : List (String × α), (acc.map Prod.fst).Nodup →
      ((buildUniques hasher l acc).map Prod.fst).Nodup := by
  induction l with
  | nil => intro acc h; simpa [buildUniques] using h
  | cons x xs ih =>
    intro acc h
    exact ih (upsert (hasher x) x acc) (nodup_fst_upsert _ _ _ h)

theorem invariant_buildUniques {α : Type} (hasher : α → String) (l : List α) :
    ∀ acc : List (String × α), (∀ p ∈ acc, hasher p.2 = p.1) →
      ∀ p ∈ buildUniques hasher l acc, hasher p.2 = p.1 := by
  induction l with
  | nil => intro acc h; simpa [buildUniques] using h
  | cons x xs ih =>
    intro acc h
    exact ih (upsert (hasher x) x acc) (invariant_upsert hasher _ _ _ h rfl)

theorem lookupA_buildUniques {α : Type} (hasher : α → String) (l : List α) :
    ∀ (acc : List (String × α)) (k : String),
      lookupA k (buildUniques hasher l acc) =
        match l.reverse.find? (fun x => hasher x = k) with
        | some x => some x
        | none => lookupA k acc := by
  induction l with
  | nil => intro acc k; simp [buildUniques]
  | cons x xs ih =>
    intro acc k
    have step : buildUniques hasher (x :: xs) acc = buildUniques hasher xs (upsert (hasher x) x acc) := rfl
    rw [step, ih]
    have hrev : (x :: xs).reverse = xs.reverse ++ [x] := by simp
    rw [hrev, List.find?_append]
    cases hfind : xs.reverse.find? (fun y => hasher y = k) with
    | some y => simp [Option.or]
    | none =>
      by_cases hx : hasher x = k
      · simp [Option.or, List.find?, hx, lookupA_upsert]
      · simp [Option.or, List.find?, hx, lookupA_upsert]

theorem mem_fst_buildUniques {α : Type} (hasher : α → String) (l : List α) :
    ∀ (acc : List (String × α)) (k : String),
      k ∈ (buildUniques hasher l acc).map Prod.fst ↔ k ∈ l.map hasher ∨ k ∈ acc.map Prod.fst := by
  induction l with
  | nil => intro acc k; simp [buildUniques]
  | cons x xs ih =>
    intro acc k
    have step : buildUniques hasher (x :: xs) acc = buildUniques hasher xs (upsert (hasher x) x acc) := rfl
    rw [step, ih, mem_fst_upsert]
    simp only [List.map_cons, List.mem_cons]
    tauto

theorem lookupA_eq_some_of_mem {α : Type} (k : String) (v : α) :
    ∀ acc : List (String × α), (acc.map Prod.fst).Nodup → (k, v) ∈ acc →
      lookupA k acc = some v := by
  intro acc
  induction acc with
  | nil => intro _ h; simp at h
  | cons p rest ih =>
    obtain ⟨k', v'⟩ := p
    intro hnd hmem
    simp only [List.map_cons, List.nodup_cons] at hnd
    rcases List.mem_cons.mp hmem with heq | hmem'
    · have hk : k' = k := (congrArg Prod.fst heq).symm
      have hv : v' = v := (congrArg Prod.snd heq).symm
      subst hk
      subst hv
      simp [lookupA]
    · have hne : k' ≠ k := by
        rintro rfl
        exact hnd.1 (List.mem_map.mpr ⟨(k', v), hmem', rfl⟩)
      simp [lookupA, hne, ih hnd.2 hmem']

theorem mem_of_lookupA_eq_some {α : Type} (k : String) (v : α) :
    ∀ acc : List (String × α), lookupA k acc = some v → (k, v) ∈ acc := by
  intro acc
  induction acc with
  | nil => intro h; simp [lookupA] at h
  | cons p rest ih =>
    obtain ⟨k', v'⟩ := p
    intro h
    by_cases hk : k' = k
    · subst hk
      have hv : v' = v := by simpa [lookupA] using h
      subst hv
      exact List.mem_cons_self _ _
    · simp only [lookupA, if_neg hk] at h
      exact List.mem_cons_of_mem _ (ih h)

theorem append_underscore_inj : ∀ (s : List Char), '_' ∉ s → ∀ (s' : List Char), '_' ∉ s' →
    ∀ (r r' : List Char), s ++ '_' :: r = s' ++ '_' :: r' → s = s' ∧ r = r' := by
  intro s
  induction s with
  | nil =>
    intro _ s' hs' r r' h
    cases s' with
    | nil =>
      simp only [List.nil_append, List.cons.injEq] at h
      exact ⟨rfl, h.2⟩
    | cons c cs =>
      simp only [List.nil_append, List.cons_append, List.cons.injEq] at h
      obtain ⟨h1, -⟩ := h
      subst h1
      exact absurd (List.mem_cons_self _ _) hs'
  | cons c cs ih =>
    intro hs s' hs' r r' h
    cases s' with
    | nil =>
      simp only [List.cons_append, List.nil_append, List.cons.injEq] at h
      obtain ⟨h1, -⟩ := h
      subst h1
      exact absurd (List.mem_cons_self _ _) hs
    | cons c' cs' =>
      simp only [List.cons_append, List.cons.injEq] at h
      obtain ⟨h1, h2⟩ := h
      subst h1
      have hcs : '_' ∉ cs := fun hm => hs (List.mem_cons_of_mem _ hm)
      have hcs' : '_' ∉ cs' := fun hm => hs' (List.mem_cons_of_mem _ hm)
      obtain ⟨he, hr⟩ := ih hcs cs' hcs' r r' h2
      exact ⟨by rw [he], hr⟩

/-- C1 counterexample: `buildTriggerName` is not collision-free on all table
names — the distinct pairs `("p_delete_update", "c")` and
`("p", "delete_update_c")` generate the same trigger name
`on_p_delete_update_delete_update_c`. -/
theorem buildTriggerName_collision :
    buildTriggerName "p_delete_update" "c" = buildTriggerName "p" "delete_update_c" ∧
    ¬("p_delete_update" = "p" ∧ "c" = "delete_update_c") := by
  exact ⟨rfl, by decide⟩

/-- C1 (amended): `buildTriggerName` is a pure function of its pair, so the
same pair always yields the same name; distinct pairs yield distinct names
provided the parent names contain no underscore character (without that
restriction the name can collide, see the counterexample); and in general
the name for `(a, b)` differs from the name for `(b, a)`. -/
theorem buildTriggerName_deterministic_injective :
    (∀ a b a' b' : String, '_' ∉ a.data → '_' ∉ a'.data →
      buildTriggerName a b = buildTriggerName a' b' → a = a' ∧ b = b') ∧
    (∃ a b : String, a ≠ b ∧ buildTriggerName a b ≠ buildTriggerName b a) := by
  constructor
  · intro a b a' b' ha ha' h
    have hd := congrArg String.data h
    simp only [buildTriggerName, String.data_append, List.append_assoc] at hd
    simp only [List.cons_append, List.nil_append, List.cons.injEq, true_and] at hd
    obtain ⟨hs, hr⟩ := append_underscore_inj a.data ha a'.data ha' _ _ hd
    have hb : b.data = b'.data := by simpa using hr
    exact ⟨String.ext hs, String.ext hb⟩
  · exact ⟨"x", "y", by decide, by decide⟩

/-- C1 witness: the injectivity half applied at the underscore-free pair
`("customers", "orders")` against itself. -/
theorem buildTriggerName_deterministic_injective_witness :
    ("customers" : String) = "customers" ∧ ("orders" : String) = "orders" :=
  buildTriggerName_deterministic_injective.1 "customers" "orders" "customers" "orders"
    (by decide) (by decide) rfl

theorem dedupe_map_hasher_eq_fst {α : Type} (hasher : α → String) (l : List α) :
    (dedupe hasher l).map hasher = (buildUniques hasher l []).map Prod.fst := by
  rw [dedupe_eq_buildUniques, List.map_map]
  exact List.map_congr_left (fun p hp => invariant_buildUniques hasher l [] (by simp) p hp)

theorem dedupe_key_nodup {α : Type} (hasher : α → String) (l : List α) :
    ((dedupe hasher l).map hasher).Nodup := by
  rw [dedupe_map_hasher_eq_fst]
  exact nodup_fst_buildUniques hasher l [] (by simp)

theorem dedupe_key_mem {α : Type} (hasher : α → String) (l : List α) (k : String) :
    k ∈ (dedupe hasher l).map hasher ↔ k ∈ l.map hasher := by
  rw [dedupe_map_hasher_eq_fst, mem_fst_buildUniques]
  simp

theorem dedupe_last_write {α : Type} (hasher : α → String) (l : List α) (x : α)
    (hx : x ∈ dedupe hasher l) :
    l.reverse.find? (fun y => hasher y = hasher x) = some x := by
  rw [dedupe_eq_buildUniques] at hx
  obtain ⟨p, hp, hpx⟩ := List.mem_map.mp hx
  have hinv : hasher p.2 = p.1 := invariant_buildUniques hasher l [] (by simp) p hp
  have hnd := nodup_fst_buildUniques hasher l [] (by simp)
  have hmem : (p.1, p.2) ∈ buildUniques hasher l [] := by
    obtain ⟨k, v⟩ := p
    exact hp
  have hlk : lookupA p.1 (buildUniques hasher l []) = some p.2 :=
    lookupA_eq_some_of_mem p.1 p.2 _ hnd hmem
  rw [lookupA_buildUniques] at hlk
  simp only [← hpx, hinv]
  cases hfind : l.reverse.find? (fun y => hasher y = p.1) with
  | none =>
    rw [hfind] at hlk
    simp [lookupA] at hlk
  | some y =>
    rw [hfind] at hlk
    simp only [Option.some.injEq] at hlk
    rw [hlk]

theorem dedupe_key_count_one {α : Type} (hasher : α → String) (l : List α) (k : String)
    (hk : k ∈ l.map hasher) : ((dedupe hasher l).map hasher).count k = 1 :=
  List.count_eq_one_of_mem (dedupe_key_nodup hasher l) ((dedupe_key_mem hasher l k).mpr hk)

/-- C3 counterexample: keyed by trigger name, `dedupe` can collapse two
relations with *distinct* `(referencedTableName, tableName)` pairs, because
the trigger name is not collision-free (cf. the `buildTriggerName`
counterexample); the pair `("p_delete_update", "c")` is present in the
input but absent from the output. -/
theorem dedupe_drops_colliding_pair :
    relationPair ⟨"c", "k1", "p_delete_update", "id"⟩ ∈
      ([⟨"c", "k1", "p_delete_update", "id"⟩, ⟨"delete_update_c", "k2", "p", "id"⟩] : List ForeignKeyFields).map relationPair ∧
    dedupe relationKey [⟨"c", "k1", "p_delete_update", "id"⟩, ⟨"delete_update_c", "k2", "p", "id"⟩] =
      [⟨"delete_update_c", "k2", "p", "id"⟩] ∧
    relationPair ⟨"c", "k1", "p_delete_update", "id"⟩ ∉
      (dedupe relationKey [⟨"c", "k1", "p_delete_update", "id"⟩, ⟨"delete_update_c", "k2", "p", "id"⟩]).map relationPair := by
  refine ⟨by decide, by decide, by decide⟩

/-- C3 (amended): `dedupe` keyed by `buildTriggerName(referencedTableName,
tableName)` keeps at most one relation per distinct `(referencedTableName,
tableName)` pair; every *trigger-name key* present in the input appears
exactly once in the output, and the surviving relation for a key is the
last input relation with that key (last-write-wins). Because the name is
not collision-free, a pair whose name collides with a later pair's name may
be absent from the output (see the counterexample). -/
theorem dedupe_relation_properties (l : List ForeignKeyFields) :
    ((dedupe relationKey l).map relationPair).Nodup ∧
    ((dedupe relationKey l).map relationKey).Nodup ∧
    (∀ k : String, k ∈ (dedupe relationKey l).map relationKey ↔ k ∈ l.map relationKey) ∧
    (∀ k : String, k ∈ l.map relationKey → ((dedupe relationKey l).map relationKey).count k = 1) ∧
    (∀ x ∈ dedupe relationKey l,
      l.reverse.find? (fun y => relationKey y = relationKey x) = some x) := by
  refine ⟨?_, dedupe_key_nodup relationKey l, fun k => dedupe_key_mem relationKey l k,
    fun k hk => dedupe_key_count_one relationKey l k hk,
    fun x hx => dedupe_last_write relationKey l x hx⟩
  have h : ((dedupe relationKey l).map relationPair).map
      (fun pr : String × String => buildTriggerName pr.1 pr.2) =
      (dedupe relationKey l).map relationKey := by
    rw [List.map_map]
    rfl
  exact List.Nodup.of_map _ (h ▸ dedupe_key_nodup relationKey l)

/-- C3 witness: the count and last-write-wins conjuncts applied to a
concrete two-relation input sharing one key. -/
theorem dedupe_relation_properties_witness :
    ((dedupe relationKey [⟨"orders", "cid", "customers", "id"⟩, ⟨"orders", "cid2", "customers", "id"⟩]).map relationKey).count
      (relationKey ⟨"orders", "cid", "customers", "id"⟩) = 1 :=
  (dedupe_relation_properties [⟨"orders", "cid", "customers", "id"⟩, ⟨"orders", "cid2", "customers", "id"⟩]).2.2.2.1
    (relationKey ⟨"orders", "cid", "customers", "id"⟩) (by decide)

set_option maxRecDepth 8192 in
/-- C4: for every `(parentTable, parentKey, childTable, childKey)` the
generated SQL contains (i) a `CREATE TRIGGER` header naming the trigger
`on_<parent>_delete_update_<child>` firing `AFTER UPDATE ON <parent> FOR
EACH ROW`, (ii) the guard `IF OLD.deletedAt IS NULL AND NEW.deletedAt IS
NOT NULL THEN`, and (iii) the body `UPDATE <child> SET <child>.deletedAt =
NOW() WHERE <child>.<childKey> = NEW.<parentKey>;`. -/
theorem createParanoidDeleteTriggerStatement_shape (p pk c ck : String) :
    occursIn ("CREATE TRIGGER on_" ++ p ++ "_delete_update_" ++ c ++
        "\n  AFTER UPDATE\n  ON " ++ p ++ " FOR EACH ROW")
      (createParanoidDeleteTriggerStatement p pk c ck) ∧
    occursIn "IF OLD.deletedAt IS NULL AND NEW.deletedAt IS NOT NULL THEN"
      (createParanoidDeleteTriggerStatement p pk c ck) ∧
    occursIn ("UPDATE " ++ c ++ "\n        SET " ++ c ++ ".deletedAt = NOW()\n      WHERE " ++
        c ++ "." ++ ck ++ " = NEW." ++ pk ++ ";")
      (createParanoidDeleteTriggerStatement p pk c ck) := by
  refine ⟨⟨"\n  ",
      "\n  BEGIN\n    IF OLD.deletedAt IS NULL AND NEW.deletedAt IS NOT NULL THEN\n      UPDATE " ++
        c ++ "\n        SET " ++ c ++ ".deletedAt = NOW()\n      WHERE " ++ c ++ "." ++ ck ++
        " = NEW." ++ pk ++ ";\n    END IF;\n  END;\n", ?_⟩,
    ⟨"\n  CREATE TRIGGER on_" ++ p ++ "_delete_update_" ++ c ++ "\n  AFTER UPDATE\n  ON " ++ p ++
        " FOR EACH ROW\n  BEGIN\n    ",
      "\n      UPDATE " ++ c ++ "\n        SET " ++ c ++ ".deletedAt = NOW()\n      WHERE " ++ c ++
        "." ++ ck ++ " = NEW." ++ pk ++ ";\n    END IF;\n  END;\n", ?_⟩,
    ⟨"\n  CREATE TRIGGER on_" ++ p ++ "_delete_update_" ++ c ++ "\n  AFTER UPDATE\n  ON " ++ p ++
        " FOR EACH ROW\n  BEGIN\n    IF OLD.deletedAt IS NULL AND NEW.deletedAt IS NOT NULL THEN\n      ",
      "\n    END IF;\n  END;\n", ?_⟩⟩ <;>
    simp [createParanoidDeleteTriggerStatement, String.ext_iff, String.data_append,
      List.append_assoc]

theorem queriesOf_op_cons (n : String) (evs : List Event) :
    queriesOf (Event.op n :: evs) = queriesOf evs := by
  simp [queriesOf]

theorem queriesOf_map_query : ∀ l : List String, queriesOf (l.map Event.query) = l := by
  intro l
  induction l with
  | nil => rfl
  | cons s rest ih => simp [queriesOf] at ih ⊢; exact ih

theorem runAll_ok_iff {E : Type} (qe : String → Except E Unit) :
    ∀ l : List String, runAll qe l = .ok () ↔ ∀ s ∈ l, qe s = .ok () := by
  intro l
  induction l with
  | nil => simp [runAll]
  | cons s rest ih =>
    simp only [runAll, List.forall_mem_cons]
    cases hq : qe s with
    | error e => simp [hq]
    | ok u =>
      cases u
      simp [hq, ih]

/-- C2: a call to any operation other than `addColumn` and `createTable`
through the decorated interface returns exactly the underlying operation's
result, executes no SQL statement beyond the underlying operation itself,
and reading the `sequelize` property returns the underlying interface's
own member unmodified. -/
theorem decorated_passthrough {E ρ σ : Type} (g : Option (String → String))
    (qexec : String → Except E Unit) (name : String) (u : Except E ρ) (h : σ)
    (hn1 : name ≠ "addColumn") (hn2 : name ≠ "createTable") :
    decoratedInvoke g qexec (.other name) u = (u, [Event.op name]) ∧
    queriesOf (decoratedInvoke g qexec (.other name) u).2 = [] ∧
    decoratorGet h "sequelize" = GetResult.handle h := by
  have hinv : decoratedInvoke g qexec (.other name) u = (u, [Event.op name]) := by
    simp [decoratedInvoke, commandName, hn1, hn2]
  refine ⟨hinv, ?_, rfl⟩
  rw [hinv]
  simp [queriesOf]

/-- C2 witness: pass-through of a `removeColumn` call. -/
theorem decorated_passthrough_witness :
    decoratedInvoke (E := Unit) (ρ := Unit) none (fun _ => Except.ok ())
        (.other "removeColumn") (Except.ok ()) = (Except.ok (), [Event.op "removeColumn"]) ∧
    queriesOf (decoratedInvoke (E := Unit) (ρ := Unit) none (fun _ => Except.ok ())
        (.other "removeColumn") (Except.ok ())).2 = [] ∧
    decoratorGet () "sequelize" = GetResult.handle () :=
  decorated_passthrough none (fun _ => Except.ok ()) "removeColumn" (Except.ok ()) ()
    (by decide) (by decide)

/-- C5: the primary key used in the synthesized trigger is resolved with
precedence explicit `references.key`, then the caller-supplied
`getPrimaryKey` resolver, then the literal `'id'`; and an `addColumn` call
with a cascade annotation referencing table `T` and no explicit key
executes exactly one statement, built against `T.id` without a resolver
and against `T.<resolverResult>` with one. -/
theorem primary_key_resolution {E ρ : Type} (g : String → String) (T m k t c : String)
    (qexec : String → Except E Unit) (r : ρ) :
    getPrimaryTableProps (.attrs ⟨some "PARANOID CASCADE", some (.model m (some k))⟩) (some g) =
      some (m, k) ∧
    getPrimaryTableProps (.attrs ⟨some "PARANOID CASCADE", some (.model m (some k))⟩) none =
      some (m, k) ∧
    getPrimaryTableProps (.attrs ⟨some "PARANOID CASCADE", some (.model m none)⟩) (some g) =
      some (m, g m) ∧
    getPrimaryTableProps (.attrs ⟨some "PARANOID CASCADE", some (.model m none)⟩) none =
      some (m, "id") ∧
    getPrimaryTableProps (.attrs ⟨some "PARANOID CASCADE", some (.table T)⟩) (some g) =
      some (T, g T) ∧
    getPrimaryTableProps (.attrs ⟨some "PARANOID CASCADE", some (.table T)⟩) none =
      some (T, "id") ∧
    queriesOf (decoratedInvoke none qexec
        (.addColumn t c (.attrs ⟨some "PARANOID CASCADE", some (.table T)⟩)) (.ok r)).2 =
      [createParanoidDeleteTriggerStatement T "id" t c] ∧
    queriesOf (decoratedInvoke (some g) qexec
        (.addColumn t c (.attrs ⟨some "PARANOID CASCADE", some (.table T)⟩)) (.ok r)).2 =
      [createParanoidDeleteTriggerStatement T (g T) t c] := by
  refine ⟨rfl, rfl, rfl, rfl, rfl, rfl, ?_, ?_⟩
  · cases hq : qexec (createParanoidDeleteTriggerStatement T "id" t c) <;>
      simp [decoratedInvoke, commandName, getPrimaryTableProps, hq, queriesOf]
  · cases hq : qexec (createParanoidDeleteTriggerStatement T (g T) t c) <;>
      simp [decoratedInvoke, commandName, getPrimaryTableProps, hq, queriesOf]

/-- C6: for intercepted `addColumn`/`createTable` calls, an underlying
failure propagates unchanged with no trigger statement executed; on
success the underlying operation is the first event (trigger synthesis
strictly after it), and when the trigger statements all succeed the
underlying operation's own result is returned to the caller. -/
theorem decorated_failure_propagation {E ρ : Type} (g : Option (String → String))
    (qexec : String → Except E Unit) (t c : String) (spec : ColumnSpec)
    (cols : List (String × ColumnSpec)) (e : E) (r : ρ) :
    decoratedInvoke g qexec (.addColumn t c spec) (Except.error e : Except E ρ) =
      (.error e, [Event.op "addColumn"]) ∧
    decoratedInvoke g qexec (.createTable t cols) (Except.error e : Except E ρ) =
      (.error e, [Event.op "createTable"]) ∧
    (decoratedInvoke g qexec (.addColumn t c spec) (.ok r)).2.head? =
      some (Event.op "addColumn") ∧
    (decoratedInvoke g qexec (.createTable t cols) (.ok r)).2.head? =
      some (Event.op "createTable") ∧
    ((∀ s ∈ queriesOf (decoratedInvoke g qexec (.addColumn t c spec) (.ok r)).2,
        qexec s = .ok ()) →
      (decoratedInvoke g qexec (.addColumn t c spec) (.ok r)).1 = .ok r) ∧
    ((∀ s ∈ queriesOf (decoratedInvoke g qexec (.createTable t cols) (.ok r)).2,
        qexec s = .ok ()) →
      (decoratedInvoke g qexec (.createTable t cols) (.ok r)).1 = .ok r) := by
  refine ⟨?_, ?_, ?_, ?_, ?_, ?_⟩
  · rcases hp : getPrimaryTableProps spec g with _ | ⟨pt, pk⟩ <;>
      simp [decoratedInvoke, commandName, hp]
  · simp [decoratedInvoke, commandName]
  · rcases hp : getPrimaryTableProps spec g with _ | ⟨pt, pk⟩ <;>
      [skip; cases hq : qexec (createParanoidDeleteTriggerStatement pt pk t c)] <;>
      simp [decoratedInvoke, commandName, hp, *]
  · simp [decoratedInvoke, commandName]
  · rcases hp : getPrimaryTableProps spec g with _ | ⟨pt, pk⟩
    · intro _
      simp [decoratedInvoke, commandName, hp]
    · intro hall
      have hq : qexec (createParanoidDeleteTriggerStatement pt pk t c) = .ok () := by
        apply hall
        cases hq : qexec (createParanoidDeleteTriggerStatement pt pk t c) <;>
          simp [decoratedInvoke, commandName, hp, hq, queriesOf]
      simp [decoratedInvoke, commandName, hp, hq]
  · intro hall
    have h2 : (decoratedInvoke g qexec (.createTable t cols) (Except.ok r : Except E ρ)).2 =
        Event.op "createTable" :: (triggerStatementsFor g t cols).map Event.query := by
      simp [decoratedInvoke, commandName]
    rw [h2, queriesOf_op_cons, queriesOf_map_query] at hall
    have hrun : runAll qexec (triggerStatementsFor g t cols) = .ok () :=
      (runAll_ok_iff qexec _).mpr hall
    simp [decoratedInvoke, commandName, hrun]

/-- C6 witness: an underlying `addColumn` failure propagates unchanged. -/
theorem decorated_failure_propagation_witness :
    decoratedInvoke (ρ := Unit) none (fun _ => Except.ok ())
        (.addColumn "orders" "customerId" (.dataType "INTEGER")) (.error "boom") =
      (.error "boom", [Event.op "addColumn"]) :=
  (decorated_failure_propagation none (fun _ => Except.ok ()) "orders" "customerId"
    (.dataType "INTEGER") [] "boom" ()).1

theorem triggerStatementsFor_length (g : Option (String → String)) (t : String) :
    ∀ cols : List (String × ColumnSpec),
      (triggerStatementsFor g t cols).length =
        (cols.filter (fun p => (getPrimaryTableProps p.2 g).isSome)).length := by
  intro cols
  induction cols with
  | nil => rfl
  | cons p rest ih =>
    rcases hp : getPrimaryTableProps p.2 g with _ | pr <;>
      simp [triggerStatementsFor, List.filterMap_cons, List.filter_cons, hp] <;>
      simpa [triggerStatementsFor] using ih

theorem decorated_createTable_ok_iff {E ρ : Type} (g : Option (String → String))
    (qexec : String → Except E Unit) (t : String) (cols : List (String × ColumnSpec)) (r : ρ) :
    (decoratedInvoke g qexec (.createTable t cols) (Except.ok r : Except E ρ)).1 = .ok r ↔
      ∀ s ∈ triggerStatementsFor g t cols, qexec s = .ok () := by
  have h : (decoratedInvoke g qexec (.createTable t cols) (Except.ok r : Except E ρ)).1 =
      match runAll qexec (triggerStatementsFor g t cols) with
      | .error e => Except.error e
      | .ok _ => Except.ok r := by
    simp [decoratedInvoke, commandName]
  rw [h, ← runAll_ok_iff qexec]
  cases hrun : runAll qexec (triggerStatementsFor g t cols) with
  | error e => simp
  | ok u =>
    cases u
    simp

/-- C7: an intercepted `createTable` issues exactly one trigger-creation
statement per cascade-annotated column, after the underlying operation,
each statement built from that column's resolved parent pair and the new
table with that column as the child pair; the call resolves with the
underlying result exactly when all statements succeed (rejecting if any
fails), and success is independent of the order of the columns (the
statements are independent, issued as one batch). -/
theorem createTable_trigger_synthesis {E ρ : Type} (g : Option (String → String))
    (qexec : String → Except E Unit) (t : String) (cols : List (String × ColumnSpec)) (r : ρ) :
    (decoratedInvoke g qexec (.createTable t cols) (Except.ok r : Except E ρ)).2 =
      Event.op "createTable" :: (triggerStatementsFor g t cols).map Event.query ∧
    (triggerStatementsFor g t cols).length =
      (cols.filter (fun p => (getPrimaryTableProps p.2 g).isSome)).length ∧
    (∀ n spec pt pk, (n, spec) ∈ cols → getPrimaryTableProps spec g = some (pt, pk) →
      createParanoidDeleteTriggerStatement pt pk t n ∈ triggerStatementsFor g t cols) ∧
    (∀ s ∈ triggerStatementsFor g t cols, ∃ n spec pt pk, (n, spec) ∈ cols ∧
      getPrimaryTableProps spec g = some (pt, pk) ∧
      s = createParanoidDeleteTriggerStatement pt pk t n) ∧
    ((decoratedInvoke g qexec (.createTable t cols) (Except.ok r : Except E ρ)).1 = .ok r ↔
      ∀ s ∈ triggerStatementsFor g t cols, qexec s = .ok ()) ∧
    (∀ cols' : List (String × ColumnSpec), cols.Perm cols' →
      ((decoratedInvoke g qexec (.createTable t cols) (Except.ok r : Except E ρ)).1 = .ok r ↔
       (decoratedInvoke g qexec (.createTable t cols') (Except.ok r : Except E ρ)).1 = .ok r)) := by
  refine ⟨?_, triggerStatementsFor_length g t cols, ?_, ?_, decorated_createTable_ok_iff g qexec t cols r, ?_⟩
  · simp [decoratedInvoke, commandName]
  · intro n spec pt pk hmem hp
    exact List.mem_map.mpr ⟨(n, (pt, pk)),
      List.mem_filterMap.mpr ⟨(n, spec), hmem, by simp [hp]⟩, rfl⟩
  · intro s hs
    obtain ⟨q, hq, rfl⟩ := List.mem_map.mp hs
    obtain ⟨p0, hp0, hf⟩ := List.mem_filterMap.mp hq
    rcases hgp : getPrimaryTableProps p0.2 g with _ | pr
    · rw [hgp] at hf
      simp at hf
    · rw [hgp] at hf
      simp only [Option.map_some', Option.some.injEq] at hf
      subst hf
      exact ⟨p0.1, p0.2, pr.1, pr.2, by simpa using hp0, by simpa using hgp, rfl⟩
  · intro cols' hperm
    have hsperm : (triggerStatementsFor g t cols).Perm (triggerStatementsFor g t cols') :=
      (hperm.filterMap _).map _
    rw [decorated_createTable_ok_iff, decorated_createTable_ok_iff]
    constructor
    · intro h s hs
      exact h s (hsperm.mem_iff.mpr hs)
    · intro h s hs
      exact h s (hsperm.mem_iff.mp hs)

/-- C7 witness: creating `orders` with two annotated columns referencing
`customers` and `warehouses` issues the two corresponding trigger
statements after the operation event. -/
theorem createTable_trigger_synthesis_witness :
    (decoratedInvoke (E := Unit) none (fun _ => Except.ok ())
        (.createTable "orders"
          [("customerId", .attrs ⟨some "PARANOID CASCADE", some (.table "customers")⟩),
           ("warehouseId", .attrs ⟨some "PARANOID CASCADE", some (.table "warehouses")⟩)])
        (Except.ok ())).2 =
      Event.op "createTable" ::
        (triggerStatementsFor none "orders"
          [("customerId", .attrs ⟨some "PARANOID CASCADE", some (.table "customers")⟩),
           ("warehouseId", .attrs ⟨some "PARANOID CASCADE", some (.table "warehouses")⟩)]).map Event.query :=
  (createTable_trigger_synthesis none (fun _ => Except.ok ()) "orders"
    [("customerId", .attrs ⟨some "PARANOID CASCADE", some (.table "customers")⟩),
     ("warehouseId", .attrs ⟨some "PARANOID CASCADE", some (.table "warehouses")⟩)] ()).1

/-- C10: a column specification carrying `onDelete: 'PARANOID CASCADE'` but
no `references` resolves to no parent, so `addColumn` behaves as a plain
pass-through with no trigger statement and no error, and such a column
contributes no statement to a `createTable` batch. -/
theorem cascade_without_references_ignored {E ρ : Type} (g : Option (String → String))
    (qexec : String → Except E Unit) (t c : String) (u : Except E ρ)
    (cols : List (String × ColumnSpec)) :
    getPrimaryTableProps (.attrs ⟨some "PARANOID CASCADE", none⟩) g = none ∧
    decoratedInvoke g qexec (.addColumn t c (.attrs ⟨some "PARANOID CASCADE", none⟩)) u =
      (u, [Event.op "addColumn"]) ∧
    triggerStatementsFor g t ((c, .attrs ⟨some "PARANOID CASCADE", none⟩) :: cols) =
      triggerStatementsFor g t cols := by
  refine ⟨rfl, ?_, ?_⟩
  · simp [decoratedInvoke, commandName, getPrimaryTableProps]
  · simp [triggerStatementsFor, List.filterMap_cons, getPrimaryTableProps]

theorem getNextRelation_dropped (installed : String → Bool) :
    ∀ q : List ForeignKeyFields, ∃ dropped,
      q = dropped ++ (getNextRelation installed q).1 ∧
      ∀ r ∈ dropped, triggerExistsCheck installed r = true := by
  intro q
  induction q with
  | nil => exact ⟨[], rfl, by simp⟩
  | cons r rest ih =>
    cases hc : triggerExistsCheck installed r with
    | true =>
      obtain ⟨dropped, heq, hall⟩ := ih
      refine ⟨r :: dropped, ?_, ?_⟩
      · simp only [getNextRelation, hc, if_pos]
        rw [List.cons_append, ← heq]
      · intro x hx
        rcases List.mem_cons.mp hx with rfl | hx'
        · exact hc
        · exact hall x hx'
    | false =>
      refine ⟨[], ?_, by simp⟩
      simp [getNextRelation, hc]

theorem getNextRelation_some (installed : String → Bool) :
    ∀ (q : List ForeignKeyFields) (r : ForeignKeyFields),
      (getNextRelation installed q).2 = some r →
      triggerExistsCheck installed r = false ∧ (getNextRelation installed q).1.head? = some r := by
  intro q
  induction q with
  | nil =>
    intro r h
    simp [getNextRelation] at h
  | cons x rest ih =>
    intro r h
    cases hc : triggerExistsCheck installed x with
    | true =>
      simp only [getNextRelation, hc, if_pos] at h ⊢
      exact ih r h
    | false =>
      simp only [getNextRelation, hc, Bool.false_eq_true, if_neg, not_false_iff] at h ⊢
      obtain rfl : x = r := by simpa using h
      exact ⟨hc, rfl⟩

theorem getNextRelation_none (installed : String → Bool) :
    ∀ q : List ForeignKeyFields, (getNextRelation installed q).2 = none →
      (getNextRelation installed q).1 = [] ∧ ∀ r ∈ q, triggerExistsCheck installed r = true := by
  intro q
  induction q with
  | nil =>
    intro _
    exact ⟨rfl, by simp⟩
  | cons x rest ih =>
    intro h
    cases hc : triggerExistsCheck installed x with
    | true =>
      simp only [getNextRelation, hc, if_pos] at h ⊢
      obtain ⟨h1, h2⟩ := ih h
      refine ⟨h1, ?_⟩
      intro r hr
      rcases List.mem_cons.mp hr with rfl | hr'
      · exact hc
      · exact h2 r hr'
    | false =>
      simp only [getNextRelation, hc, Bool.false_eq_true, if_neg, not_false_iff] at h
      simp at h

/-- C8: before presenting anything, the engine runs the existence check on
the queue head and drops every covered head, recursively: the final queue
is a suffix of the input whose dropped prefix is entirely covered; a
presented relation is the (uncovered) head of the remaining queue and is
prompted; if everything is covered the queue empties and the session
closes — so a relation whose trigger already exists is never offered. -/
theorem skip_covered_relations (installed : String → Bool) (q : List ForeignKeyFields) :
    (∃ dropped, q = dropped ++ (getNextRelation installed q).1 ∧
      ∀ r ∈ dropped, triggerExistsCheck installed r = true) ∧
    (∀ r, (getNextRelation installed q).2 = some r →
      triggerExistsCheck installed r = false ∧
      (getNextRelation installed q).1.head? = some r ∧
      (askForNextRelation installed q).2 = SessionStep.prompted r) ∧
    ((getNextRelation installed q).2 = none →
      (getNextRelation installed q).1 = [] ∧
      (∀ r ∈ q, triggerExistsCheck installed r = true) ∧
      (askForNextRelation installed q).2 = SessionStep.closed) := by
  refine ⟨getNextRelation_dropped installed q, ?_, ?_⟩
  · intro r h
    obtain ⟨h1, h2⟩ := getNextRelation_some installed q r h
    refine ⟨h1, h2, ?_⟩
    rcases hgn : getNextRelation installed q with ⟨q', o⟩
    rw [hgn] at h
    simp only at h
    subst h
    simp [askForNextRelation, hgn]
  · intro h
    obtain ⟨h1, h2⟩ := getNextRelation_none installed q h
    refine ⟨h1, h2, ?_⟩
    rcases hgn : getNextRelation installed q with ⟨q', o⟩
    rw [hgn] at h
    simp only at h
    subst h
    simp [askForNextRelation, hgn]

/-- C8 witness: with the trigger for `(customers, orders)` already
installed, the covered head is dropped and the uncovered relation
`orders → payments` is the one presented. -/
theorem skip_covered_relations_witness :
    triggerExistsCheck (fun s => s == buildTriggerName "customers" "orders")
      ⟨"payments", "orderId", "orders", "id"⟩ = false ∧
    (getNextRelation (fun s => s == buildTriggerName "customers" "orders")
      [⟨"orders", "customerId", "customers", "id"⟩,
       ⟨"payments", "orderId", "orders", "id"⟩]).1.head? =
      some ⟨"payments", "orderId", "orders", "id"⟩ ∧
    (askForNextRelation (fun s => s == buildTriggerName "customers" "orders")
      [⟨"orders", "customerId", "customers", "id"⟩,
       ⟨"payments", "orderId", "orders", "id"⟩]).2 =
      SessionStep.prompted ⟨"payments", "orderId", "orders", "id"⟩ :=
  (skip_covered_relations (fun s => s == buildTriggerName "customers" "orders")
    [⟨"orders", "customerId", "customers", "id"⟩,
     ⟨"payments", "orderId", "orders", "id"⟩]).2.1
    ⟨"payments", "orderId", "orders", "id"⟩ (by decide)

/-- C9: on `'c'` the engine builds and executes the create-trigger
statement for the head relation; whether the execution succeeds (success
reported) or fails (error logged), the head is removed and the engine
advances to the next non-covered relation via the same
`askForNextRelation` continuation — a trigger-creation failure never
terminates the session. -/
theorem cascade_choice_dequeues {E : Type} (installed : String → Bool)
    (qexec : String → Except E Unit) (r : ForeignKeyFields) (rest : List ForeignKeyFields) :
    (qexec (buildCreateTriggerStatement r.referencedTableName r.referencedColumnName
        r.tableName r.columnName) = .ok () →
      handleCascade installed qexec (r :: rest) =
        some ([buildCreateTriggerStatement r.referencedTableName r.referencedColumnName
            r.tableName r.columnName],
          LogEntry.createdTrigger r.tableName r.referencedTableName,
          askForNextRelation installed rest)) ∧
    (∀ e : E, qexec (buildCreateTriggerStatement r.referencedTableName r.referencedColumnName
        r.tableName r.columnName) = .error e →
      handleCascade installed qexec (r :: rest) =
        some ([buildCreateTriggerStatement r.referencedTableName r.referencedColumnName
            r.tableName r.columnName],
          LogEntry.loggedError,
          askForNextRelation installed rest)) := by
  constructor
  · intro h
    simp [handleCascade, h]
  · intro e h
    simp [handleCascade, h]

/-- C9 witness: a failing trigger creation is logged, the head is still
dequeued and the session continues. -/
theorem cascade_choice_dequeues_witness :
    handleCascade (fun _ => false) (fun _ => Except.error "SQL error")
        [⟨"orders", "customerId", "customers", "id"⟩] =
      some ([buildCreateTriggerStatement "customers" "id" "orders" "customerId"],
        LogEntry.loggedError, askForNextRelation (fun _ => false) []) :=
  (cascade_choice_dequeues (fun _ => false) (fun _ => Except.error "SQL error")
    ⟨"orders", "customerId", "customers", "id"⟩ []).2 "SQL error" rfl

end SPD
